import Mathlib

/-!
Verification of the group-scoped reflection store and peer-insight codec of
the Mini OpenStax chat application (src/js/groupManager.js), against its
natural-language specification.

The JavaScript source is shallowly embedded: `localStorage` becomes an
explicit `Store` record holding the slots the group manager touches, the
string primitives the code relies on (`String.prototype.trim`,
`String.prototype.split`, `parseInt(·, 10)`, `encodeURIComponent`,
`decodeURIComponent`) are modelled as executable Lean functions over
`List Char`, and every exported function of groupManager.js becomes a pure
state-passing function.  `Date.now()` is passed in as an explicit `now`
argument.
-/

namespace ChatApp

/-! ## JavaScript string primitives -/

/-- Whitespace as recognised by JavaScript `trim` and `parseInt`
(space, tab, line terminators, NBSP, BOM and the other WhiteSpace
code points). -/
def isJsWhitespace (c : Char) : Bool :=
  c = ' ' || c = '\t' || c = '\n' || c = '\r' ||
  c = '\x0b' || c = '\x0c' || c = '\u00a0' || c = '\u1680' ||
  c = '\u2000' || c = '\u2001' || c = '\u2002' || c = '\u2003' ||
  c = '\u2004' || c = '\u2005' || c = '\u2006' || c = '\u2007' ||
  c = '\u2008' || c = '\u2009' || c = '\u200a' || c = '\u2028' ||
  c = '\u2029' || c = '\u202f' || c = '\u205f' || c = '\u3000' ||
  c = '\ufeff'

/-- Drop trailing characters satisfying the whitespace test. -/
def dropTrailingWs (cs : List Char) : List Char :=
  ((cs.reverse).dropWhile isJsWhitespace).reverse

/-- `trim` on the character list: drop leading, then trailing whitespace. -/
def jsTrimList (cs : List Char) : List Char :=
  dropTrailingWs (cs.dropWhile isJsWhitespace)

/-- Embedding of JavaScript `String.prototype.trim`. -/
def jsTrim (s : String) : String :=
  String.mk (jsTrimList s.data)

/-- Split a character list at every occurrence of `sep`, keeping empty
chunks, exactly as JavaScript `split` with a one-character separator. -/
def splitOnChar (sep : Char) : List Char → List (List Char)
  | [] => [[]]
  | c :: rest =>
    match splitOnChar sep rest with
    | [] => [[]]
    | g :: gs => if c = sep then [] :: g :: gs else (c :: g) :: gs

/-- Embedding of JavaScript `String.prototype.split` with a
one-character separator. -/
def jsSplit (s : String) (sep : Char) : List String :=
  (splitOnChar sep s.data).map String.mk

/-- Numeric value of a list of decimal digit characters. -/
def digitsVal (ds : List Char) : Nat :=
  ds.foldl (fun a c => 10 * a + (c.toNat - 48)) 0

/-- Value of the longest leading run of decimal digits, if non-empty. -/
def jsParseDigits (cs : List Char) : Option Nat :=
  let ds := cs.takeWhile Char.isDigit
  if ds.isEmpty then none else some (digitsVal ds)

/-- Embedding of JavaScript `parseInt(s, 10)`: skip leading whitespace,
read an optional sign, then the longest run of decimal digits; `none`
models the `NaN` result. -/
def jsParseIntChars : List Char → Option Int
  | [] => none
  | c :: rest =>
    if c = '-' then (fun n => -(n : Int)) <$> jsParseDigits rest
    else if c = '+' then (fun n => (n : Int)) <$> jsParseDigits rest
    else (fun n => (n : Int)) <$> jsParseDigits (c :: rest)

def jsParseInt (s : String) : Option Int :=
  jsParseIntChars (s.data.dropWhile isJsWhitespace)

/-! ## Percent encoding (`encodeURIComponent` / `decodeURIComponent`) -/

/-- Characters `encodeURIComponent` leaves unescaped. -/
def isUriUnreserved (c : Char) : Bool :=
  c.isAlphanum || c = '-' || c = '_' || c = '.' || c = '!' ||
  c = '~' || c = '*' || c = '\'' || c = '(' || c = ')'

/-- UTF-8 bytes of one scalar value. -/
def utf8Bytes (c : Char) : List Nat :=
  if c.toNat < 0x80 then [c.toNat]
  else if c.toNat < 0x800 then [0xc0 + c.toNat / 64, 0x80 + c.toNat % 64]
  else if c.toNat < 0x10000 then
    [0xe0 + c.toNat / 4096, 0x80 + (c.toNat / 64) % 64, 0x80 + c.toNat % 64]
  else
    [0xf0 + c.toNat / 262144, 0x80 + (c.toNat / 4096) % 64,
     0x80 + (c.toNat / 64) % 64, 0x80 + c.toNat % 64]

/-- Upper-case hexadecimal digit for `n < 16`. -/
def toHexDigit (n : Nat) : Char :=
  if n < 10 then Char.ofNat (48 + n) else Char.ofNat (55 + n)

/-- The three characters of one percent escape. -/
def escapeByte (b : Nat) : List Char :=
  ['%', toHexDigit (b / 16), toHexDigit (b % 16)]

/-- Output characters contributed by one input character of
`encodeURIComponent`. -/
def encodeCharL (c : Char) : List Char :=
  if isUriUnreserved c then [c] else (utf8Bytes c).map escapeByte |>.flatten

/-- Embedding of JavaScript `encodeURIComponent`. -/
def encodeURIComponent (s : String) : String :=
  String.mk ((s.data.map encodeCharL).flatten)

/-- Value of one hexadecimal digit character (either case). -/
def hexVal (c : Char) : Option Nat :=
  if '0' ≤ c ∧ c ≤ '9' then some (c.toNat - 48)
  else if 'A' ≤ c ∧ c ≤ 'F' then some (c.toNat - 55)
  else if 'a' ≤ c ∧ c ≤ 'f' then some (c.toNat - 87)
  else none

/-- Turn the text back into a byte sequence: every `%XX` escape becomes
the byte `XX`, every literal character contributes its own UTF-8 bytes.
`none` models the `URIError` thrown on a malformed escape. -/
def percentDecodeBytes : List Char → Option (List Nat)
  | [] => some []
  | c :: rest =>
    if c = '%' then
      match rest with
      | c1 :: c2 :: rest2 => do
        let hi ← hexVal c1
        let lo ← hexVal c2
        let bs ← percentDecodeBytes rest2
        pure ((16 * hi + lo) :: bs)
      | _ => none
    else do
      let bs ← percentDecodeBytes rest
      pure (utf8Bytes c ++ bs)

/-- Continuation byte test. -/
def isContByte (b : Nat) : Bool := 0x80 ≤ b && b < 0xc0

mutual

/-- Strict UTF-8 decoding of a byte sequence (rejecting truncated
sequences, stray or missing continuation bytes, overlong forms,
surrogates and out-of-range values), as `decodeURIComponent` requires.
A lead byte dispatches to `utf8Tail`, which consumes the remaining
continuation bytes of the sequence; `lo` is the smallest code point the
sequence length may encode (rejecting overlong forms) and the final
range test also rejects surrogates and values beyond `0x10ffff`. -/
def utf8Decode : List Nat → Option (List Char)
  | [] => some []
  | b0 :: rest =>
    if b0 < 0x80 then (Char.ofNat b0 :: ·) <$> utf8Decode rest
    else if b0 < 0xc2 then none
    else if b0 < 0xe0 then utf8Tail 0x80 1 (b0 - 0xc0) rest
    else if b0 < 0xf0 then utf8Tail 0x800 2 (b0 - 0xe0) rest
    else if b0 < 0xf5 then utf8Tail 0x10000 3 (b0 - 0xf0) rest
    else none
termination_by bs => bs.length

/-- Consume `k` continuation bytes, accumulating the code point. -/
def utf8Tail : Nat → Nat → Nat → List Nat → Option (List Char)
  | _, _, _, [] => none
  | lo, 1, acc, b :: rest =>
    if isContByte b then
      if lo ≤ acc * 64 + (b - 0x80) ∧
          (acc * 64 + (b - 0x80) < 0xd800 ∨
            (0xe000 ≤ acc * 64 + (b - 0x80) ∧
              acc * 64 + (b - 0x80) ≤ 0x10ffff)) then
        (Char.ofNat (acc * 64 + (b - 0x80)) :: ·) <$> utf8Decode rest
      else none
    else none
  | lo, k + 2, acc, b :: rest =>
    if isContByte b then utf8Tail lo (k + 1) (acc * 64 + (b - 0x80)) rest
    else none
  | _, 0, _, _ :: _ => none
termination_by _lo _k _acc bs => bs.length

end

/-- Embedding of JavaScript `decodeURIComponent`; `none` models a thrown
`URIError`. -/
def decodeURIComponent (s : String) : Option String := do
  let bs ← percentDecodeBytes s.data
  let cs ← utf8Decode bs
  pure (String.mk cs)

/-! ## Data model

`localStorage` is embedded as a record of the slots groupManager.js reads
or writes.  A reflection bucket lives under the storage key
`group_reflections_<groupId>_<chapter>`; since the chapter is rendered as
a decimal numeral (which contains no underscore) that key determines the
`(groupId, chapter)` pair uniquely, so buckets are indexed by the pair
directly.  `JSON.parse(getItem(key) or [])` / `setItem(key, stringify)`
round-trips the entry list faithfully, so buckets hold entry lists. -/

/-- One element of a reflection bucket.  `mastery` is `none` for entries
authored locally by `saveReflectionToGroup` (the JavaScript object has no
`mastery` property there) and `some _` for imported entries. -/
structure ReflectionEntry where
  text : String
  timestamp : Int
  student : String
  mastery : Option Bool
deriving DecidableEq, Repr

/-- The `localStorage` slots touched by groupManager.js.
`group` is the `miniopenstax_group` slot, `studentName` the
`student_name` slot, `drafts c` the per-lesson authoring slot
`reflection_<c>`, and `buckets g c` the bucket slot
`group_reflections_<g>_<c>` (absent slot = empty list). -/
structure Store where
  group : Option String
  studentName : Option String
  drafts : Nat → Option String
  buckets : String → Nat → List ReflectionEntry

/-- The storage state of a fresh device: every slot absent. -/
def initStore : Store :=
  { group := none, studentName := none,
    drafts := fun _ => none, buckets := fun _ _ => [] }

/-- Write one bucket slot, leaving every other slot unchanged. -/
def updateBucket (f : String → Nat → List ReflectionEntry) (g : String)
    (c : Nat) (v : List ReflectionEntry) : String → Nat → List ReflectionEntry :=
  fun g2 c2 => if g2 = g ∧ c2 = c then v else f g2 c2

/-- JavaScript truthiness of a nullable string slot: `null` and the empty
string are falsy. -/
def jsTruthy : Option String → Bool
  | some x => x ≠ ""
  | none => false

/-- Embedding of `getItem(k) || d`: the default replaces both `null` and
the (falsy) empty string. -/
def jsOrDefault : Option String → String → String
  | some x, d => if x = "" then d else x
  | none, d => d

/-- How a JavaScript template literal renders the nullable group slot:
`null` prints as the text `null`. -/
def jsRender : Option String → String
  | some g => g
  | none => "null"

/-! ## groupManager.js operations -/

/-- Embedding of `getGroupId`. -/
def getGroupId (s : Store) : Option String :=
  s.group

/-- Embedding of `setGroupId`: store the trimmed name when it is a
non-empty string after trimming, otherwise do nothing. -/
def setGroupId (s : Store) (name : String) : Store :=
  if jsTrim name ≠ "" then { s with group := some (jsTrim name) } else s

/-- Embedding of `saveReflectionToGroup` (`Date.now()` passed as `now`):
no-op without a truthy group or with blank text, otherwise append
`{text: text.trim(), timestamp: now, student}` to the
`(group, chapter)` bucket unless an entry with the same student and
trimmed text is already there. -/
def saveReflectionToGroup (s : Store) (now : Int) (chapter : Nat)
    (text : String) : Store :=
  let studentName := jsOrDefault s.studentName "Anonymous"
  match s.group with
  | none => s
  | some groupId =>
    if groupId = "" ∨ jsTrim text = "" then s
    else
      let existing := s.buckets groupId chapter
      let alreadyExists := existing.any fun item =>
        item.student = studentName && item.text = jsTrim text
      if alreadyExists then s
      else
        let entry : ReflectionEntry :=
          { text := jsTrim text, timestamp := now,
            student := studentName, mastery := none }
        { s with buckets :=
            updateBucket s.buckets groupId chapter (existing ++ [entry]) }

/-- Embedding of `loadPeerReflections`: empty without a truthy group,
otherwise the `(group, chapter)` bucket with the current user's own
entries filtered out (`student !== myName`; with no stored name nothing
is filtered, as a string is never identical to `null`). -/
def loadPeerReflections (s : Store) (chapter : Nat) : List ReflectionEntry :=
  match s.group with
  | none => []
  | some groupId =>
    if groupId = "" then []
    else
      (s.buckets groupId chapter).filter fun reflection =>
        match s.studentName with
        | some myName => reflection.student != myName
        | none => true

/-- Embedding of `exportInsightPayload` (`Date.now()` passed as `now`):
`none` when group, student name or the per-lesson authoring draft is
missing or empty, otherwise the six pipe-joined fields. -/
def exportInsightPayload (s : Store) (now : Nat) (chapter : Nat)
    (mastery : Bool) : Option String :=
  match s.group, s.studentName, s.drafts chapter with
  | some groupId, some studentName, some reflection =>
    if groupId = "" ∨ studentName = "" ∨ reflection = "" then none
    else
      let cleanText := encodeURIComponent (jsTrim reflection)
      let masteryFlag := if mastery then "M" else "N"
      some (groupId ++ "|" ++ Nat.repr chapter ++ "|" ++ Nat.repr now ++
        "|" ++ cleanText ++ "|" ++ studentName ++ "|" ++ masteryFlag)
  | _, _, _ => none

/-- The result record of `importPeerInsight`. -/
structure ImportResult where
  success : Bool
  message : String
deriving DecidableEq, Repr

/-- The group-mismatch failure message, naming the payload group and the
importer's (possibly absent) group. -/
def groupMismatchMsg (importGroupId : String) (current : Option String) : String :=
  "Insight is for group \"" ++ importGroupId ++ "\", but you\u0027re in \"" ++
    jsRender current ++ "\"."

/-- The lesson-mismatch failure message (both lesson indices shifted by
one for display). -/
def lessonMismatchMsg (chapter : Int) (currentChapter : Nat) : String :=
  "This insight is from Lesson " ++ toString (chapter + 1) ++
    ", but you're on Lesson " ++ toString ((currentChapter : Int) + 1) ++ "."

/-- Embedding of `importPeerInsight`.  The destructuring takes the first
six split fields; the `try`/`catch` in the source can only be triggered
by `decodeURIComponent` throwing, which is the `none` branch below.
Where the source stores under the parsed `chapter`, that value has
already been checked equal to `currentChapter`, hence `chapter.toNat`. -/
def importPeerInsight (s : Store) (payload : String) (currentChapter : Nat) :
    ImportResult × Store :=
  let parts := jsSplit payload '|'
  if parts.length < 6 then
    ({ success := false, message := "Invalid format. Paste the full message." }, s)
  else
    let importGroupId := parts.getD 0 ""
    let encodedText := parts.getD 3 ""
    let studentName := parts.getD 4 ""
    let masteryFlag := parts.getD 5 ""
    match jsParseInt (parts.getD 1 ""), jsParseInt (parts.getD 2 "") with
    | some chapter, some timestamp =>
      if s.group ≠ some importGroupId then
        ({ success := false, message := groupMismatchMsg importGroupId s.group }, s)
      else if chapter ≠ (currentChapter : Int) then
        ({ success := false, message := lessonMismatchMsg chapter currentChapter }, s)
      else
        match decodeURIComponent encodedText with
        | none =>
          ({ success := false,
             message := "Failed to parse. Share via WhatsApp exactly as sent." }, s)
        | some text =>
          if jsTrim text = "" then
            ({ success := false, message := "Empty reflection text." }, s)
          else
            let existing := s.buckets importGroupId chapter.toNat
            let exists2 := existing.any fun r =>
              r.student = studentName && r.text = text
            if exists2 then
              ({ success := false, message := "Already imported this insight." }, s)
            else
              let entry : ReflectionEntry :=
                { text := text, timestamp := timestamp,
                  student := studentName, mastery := some (masteryFlag = "M") }
              let buckets2 :=
                updateBucket s.buckets importGroupId chapter.toNat
                  (existing ++ [entry])
              ({ success := true, message := "Peer insight added successfully!" },
               { s with buckets := buckets2 })
    | _, _ =>
      ({ success := false, message := "Invalid timestamp or chapter." }, s)

/-! ## Lemmas about the string primitives -/

theorem dropWhile_head_false {p : Char → Bool} {l : List Char} {a : Char}
    {t : List Char} (h : l.dropWhile p = a :: t) : p a = false := by
  induction l with
  | nil => simp at h
  | cons c rest ih =>
    by_cases hc : p c
    · exact ih (by simpa [List.dropWhile, hc] using h)
    · simp [List.dropWhile, hc] at h
      simp [← h.1, hc]

theorem dropWhile_eq_self {p : Char → Bool} {l : List Char}
    (h : ∀ a t, l = a :: t → p a = false) : l.dropWhile p = l := by
  cases l with
  | nil => rfl
  | cons c rest => simp [List.dropWhile, h c rest rfl]

theorem dropWhile_idem (p : Char → Bool) (l : List Char) :
    (l.dropWhile p).dropWhile p = l.dropWhile p :=
  dropWhile_eq_self fun _ _ h => dropWhile_head_false h

/-- The trimmed list starts with a non-whitespace character. -/
theorem jsTrimList_noLeadWs (d : List Char) (a : Char) (t : List Char)
    (h : jsTrimList d = a :: t) : isJsWhitespace a = false := by
  have hsuf : ((d.dropWhile isJsWhitespace).reverse.dropWhile isJsWhitespace)
      <:+ (d.dropWhile isJsWhitespace).reverse := List.dropWhile_suffix _
  have hpre := List.reverse_prefix.mpr hsuf
  rw [List.reverse_reverse] at hpre
  obtain ⟨r, hr⟩ := hpre
  unfold jsTrimList dropTrailingWs at h
  rw [h] at hr
  exact dropWhile_head_false (t := t ++ r) hr.symm

theorem jsTrimList_idem (d : List Char) :
    jsTrimList (jsTrimList d) = jsTrimList d := by
  have h1 : (jsTrimList d).dropWhile isJsWhitespace = jsTrimList d :=
    dropWhile_eq_self fun a t h => jsTrimList_noLeadWs d a t h
  have h2 : (jsTrimList d).reverse
      = (d.dropWhile isJsWhitespace).reverse.dropWhile isJsWhitespace := by
    unfold jsTrimList dropTrailingWs
    rw [List.reverse_reverse]
  calc jsTrimList (jsTrimList d)
      = dropTrailingWs ((jsTrimList d).dropWhile isJsWhitespace) := rfl
    _ = dropTrailingWs (jsTrimList d) := by rw [h1]
    _ = ((jsTrimList d).reverse.dropWhile isJsWhitespace).reverse := rfl
    _ = jsTrimList d := by
        rw [h2, dropWhile_idem, ← h2, List.reverse_reverse]

theorem jsTrim_idem (s : String) : jsTrim (jsTrim s) = jsTrim s :=
  congrArg String.mk (jsTrimList_idem s.data)

theorem jsTrim_empty : jsTrim "" = "" := rfl

theorem ne_empty_of_jsTrim {s : String} (h : jsTrim s ≠ "") : s ≠ "" := by
  intro he
  exact h (he ▸ jsTrim_empty)

/-! ## Lemmas about splitting -/

theorem splitOnChar_ne_nil (sep : Char) (cs : List Char) :
    splitOnChar sep cs ≠ [] := by
  cases cs with
  | nil => simp [splitOnChar]
  | cons c rest =>
    simp only [splitOnChar]
    cases h : splitOnChar sep rest with
    | nil => simp
    | cons g gs =>
      by_cases hc : c = sep <;> simp [hc]

theorem splitOnChar_not_mem {sep : Char} {cs : List Char} (h : sep ∉ cs) :
    splitOnChar sep cs = [cs] := by
  induction cs with
  | nil => rfl
  | cons c rest ih =>
    have hc : ¬ c = sep := fun he => h (he ▸ List.mem_cons_self c rest)
    have hrest : sep ∉ rest := fun hm => h (List.mem_cons_of_mem c hm)
    simp only [splitOnChar, ih hrest]
    rw [if_neg hc]

theorem splitOnChar_append {sep : Char} {a rest : List Char} (h : sep ∉ a) :
    splitOnChar sep (a ++ sep :: rest) = a :: splitOnChar sep rest := by
  induction a with
  | nil =>
    simp only [List.nil_append, splitOnChar]
    cases hr : splitOnChar sep rest with
    | nil => exact absurd hr (splitOnChar_ne_nil sep rest)
    | cons g gs => simp
  | cons c a2 ih =>
    have hc : ¬ c = sep := fun he => h (he ▸ List.mem_cons_self c a2)
    have ha2 : sep ∉ a2 := fun hm => h (List.mem_cons_of_mem c hm)
    rw [List.cons_append]
    simp only [splitOnChar]
    rw [ih ha2]
    simp [hc]

/-! ## Decimal numerals: `Nat.repr` parses back with `jsParseInt` -/

/-- Decimal digit characters of `n`, most significant first. -/
def natDigits (n : Nat) : List Char :=
  if _h : n < 10 then [Nat.digitChar n]
  else natDigits (n / 10) ++ [Nat.digitChar (n % 10)]
termination_by n
decreasing_by exact Nat.div_lt_self (by omega) (by omega)

theorem digitChar_isDigit {m : Nat} (h : m < 10) :
    (Nat.digitChar m).isDigit = true := by
  interval_cases m <;> rfl

theorem digitChar_val {m : Nat} (h : m < 10) :
    (Nat.digitChar m).toNat - 48 = m := by
  interval_cases m <;> rfl

theorem natDigits_all_digit (n : Nat) :
    ∀ c ∈ natDigits n, c.isDigit = true := by
  induction n using Nat.strong_induction_on with
  | _ n ih =>
    intro c hc
    by_cases h : n < 10
    · rw [natDigits, dif_pos h] at hc
      simp only [List.mem_singleton] at hc
      exact hc ▸ digitChar_isDigit h
    · rw [natDigits, dif_neg h] at hc
      rcases List.mem_append.mp hc with h1 | h1
      · exact ih (n / 10) (Nat.div_lt_self (by omega) (by omega)) c h1
      · simp only [List.mem_singleton] at h1
        exact h1 ▸ digitChar_isDigit (Nat.mod_lt n (by omega))

theorem natDigits_ne_nil (n : Nat) : natDigits n ≠ [] := by
  by_cases h : n < 10
  · rw [natDigits, dif_pos h]
    simp
  · rw [natDigits, dif_neg h]
    simp

theorem digitsVal_append_singleton (xs : List Char) (c : Char) :
    digitsVal (xs ++ [c]) = 10 * digitsVal xs + (c.toNat - 48) := by
  unfold digitsVal
  rw [List.foldl_append]
  rfl

theorem digitsVal_natDigits (n : Nat) : digitsVal (natDigits n) = n := by
  induction n using Nat.strong_induction_on with
  | _ n ih =>
    by_cases h : n < 10
    · rw [natDigits, dif_pos h]
      show 10 * 0 + ((Nat.digitChar n).toNat - 48) = n
      rw [digitChar_val h]
      omega
    · rw [natDigits, dif_neg h, digitsVal_append_singleton,
        ih (n / 10) (Nat.div_lt_self (by omega) (by omega)),
        digitChar_val (Nat.mod_lt n (by omega))]
      omega

theorem toDigitsCore_eq (fuel n : Nat) (ds : List Char)
    (hfuel : n < 10 ^ fuel) (hpos : 0 < fuel) :
    Nat.toDigitsCore 10 fuel n ds = natDigits n ++ ds := by
  induction fuel generalizing n ds with
  | zero => omega
  | succ fuel ih =>
    show Nat.toDigitsCore 10 (fuel + 1) n ds = natDigits n ++ ds
    unfold Nat.toDigitsCore
    by_cases h : n / 10 = 0
    · rw [if_pos h]
      have hn : n < 10 := by omega
      rw [natDigits, dif_pos hn, Nat.mod_eq_of_lt hn]
      rfl
    · rw [if_neg h]
      have hn : ¬ n < 10 := by omega
      have hdiv : n / 10 < 10 ^ fuel := by
        apply Nat.div_lt_of_lt_mul
        rw [Nat.mul_comm, ← Nat.pow_succ]
        exact hfuel
      have hfp : 0 < fuel := by
        by_contra hf
        have hzero : fuel = 0 := by omega
        subst hzero
        simp only [pow_zero, pow_one] at hfuel hdiv
        omega
      have hsplit : natDigits n
          = natDigits (n / 10) ++ [Nat.digitChar (n % 10)] := by
        rw [natDigits]
        exact dif_neg hn
      rw [ih (n / 10) (Nat.digitChar (n % 10) :: ds) hdiv hfp, hsplit]
      simp

theorem repr_data (n : Nat) : (Nat.repr n).data = natDigits n := by
  show (Nat.toDigits 10 n).asString.data = natDigits n
  unfold Nat.toDigits
  have h1 : n < 10 ^ (n + 1) := by
    calc n < 10 ^ n := Nat.lt_pow_self (by omega) n
    _ ≤ 10 ^ (n + 1) := Nat.pow_le_pow_right (by omega) (by omega)
  rw [toDigitsCore_eq (n + 1) n [] h1 (by omega)]
  simp [List.asString]

theorem ws_not_digit {c : Char} (h : isJsWhitespace c = true) :
    c.isDigit = false := by
  simp only [isJsWhitespace, Bool.or_eq_true, decide_eq_true_eq] at h
  rcases h with ((((((((((((((((((((((((h|h)|h)|h)|h)|h)|h)|h)|h)|h)|h)|h)|h)|h)|h)|h)|h)|h)|h)|h)|h)|h)|h)|h)|h) <;>
    subst h <;> rfl

theorem digit_not_ws {c : Char} (h : c.isDigit = true) :
    isJsWhitespace c = false := by
  by_contra hw
  rw [ws_not_digit (by revert hw; cases isJsWhitespace c <;> simp)] at h
  exact Bool.false_ne_true h

theorem takeWhile_eq_self_of_all {p : Char → Bool} {l : List Char}
    (h : ∀ c ∈ l, p c = true) : l.takeWhile p = l := by
  induction l with
  | nil => rfl
  | cons c rest ih =>
    simp [List.takeWhile_cons, h c (List.mem_cons_self c rest),
      ih fun x hx => h x (List.mem_cons_of_mem c hx)]

theorem jsParseDigits_natDigits (n : Nat) :
    jsParseDigits (natDigits n) = some n := by
  unfold jsParseDigits
  rw [takeWhile_eq_self_of_all (natDigits_all_digit n)]
  rw [if_neg (by simp [List.isEmpty_iff, natDigits_ne_nil n])]
  rw [digitsVal_natDigits]

theorem jsParseInt_repr (n : Nat) :
    jsParseInt (Nat.repr n) = some (n : Int) := by
  unfold jsParseInt
  rw [repr_data n]
  rw [dropWhile_eq_self (fun a t h => by
    have ha : a ∈ natDigits n := h ▸ List.mem_cons_self a t
    exact digit_not_ws (natDigits_all_digit n a ha))]
  cases hd : natDigits n with
  | nil => exact absurd hd (natDigits_ne_nil n)
  | cons a t =>
    have ha : a.isDigit = true :=
      natDigits_all_digit n a (hd ▸ List.mem_cons_self a t)
    have hm : ¬ a = '-' := by
      intro he
      rw [he] at ha
      exact absurd ha (by decide)
    have hp : ¬ a = '+' := by
      intro he
      rw [he] at ha
      exact absurd ha (by decide)
    rw [jsParseIntChars, if_neg hm, if_neg hp, ← hd, jsParseDigits_natDigits n]
    rfl

theorem bar_not_mem_natDigits (n : Nat) : '|' ∉ natDigits n := by
  intro hm
  have := natDigits_all_digit n '|' hm
  exact Bool.false_ne_true this

/-! ## Round-trip of the percent encoding -/

theorem char_toNat_valid (c : Char) :
    c.toNat < 0xd800 ∨ (0xdfff < c.toNat ∧ c.toNat < 0x110000) := by
  rcases c.valid with h | ⟨h1, h2⟩
  · left
    simpa [UInt32.lt_def, BitVec.lt_def, Char.toNat, UInt32.toNat] using h
  · right
    constructor
    · simpa [UInt32.lt_def, BitVec.lt_def, Char.toNat, UInt32.toNat] using h1
    · simpa [UInt32.lt_def, BitVec.lt_def, Char.toNat, UInt32.toNat] using h2

theorem char_toNat_lt (c : Char) : c.toNat < 0x110000 := by
  rcases char_toNat_valid c with h | ⟨_, h⟩ <;> omega

theorem utf8Bytes_lt_256 (c : Char) : ∀ b ∈ utf8Bytes c, b < 256 := by
  intro b hb
  have hlt := char_toNat_lt c
  unfold utf8Bytes at hb
  by_cases h1 : c.toNat < 0x80
  · rw [if_pos h1] at hb
    simp only [List.mem_singleton] at hb
    omega
  · rw [if_neg h1] at hb
    by_cases h2 : c.toNat < 0x800
    · rw [if_pos h2] at hb
      simp only [List.mem_cons, List.not_mem_nil, or_false] at hb
      rcases hb with hb | hb <;> omega
    · rw [if_neg h2] at hb
      by_cases h3 : c.toNat < 0x10000
      · rw [if_pos h3] at hb
        simp only [List.mem_cons, List.not_mem_nil, or_false] at hb
        rcases hb with hb | hb | hb <;> omega
      · rw [if_neg h3] at hb
        simp only [List.mem_cons, List.not_mem_nil, or_false] at hb
        rcases hb with hb | hb | hb | hb <;> omega

theorem hexVal_toHexDigit {n : Nat} (h : n < 16) :
    hexVal (toHexDigit n) = some n := by
  interval_cases n <;> decide

theorem percentDecodeBytes_cons_not_pct {c : Char} (h : ¬ c = '%')
    (rest : List Char) :
    percentDecodeBytes (c :: rest)
      = (fun bs => utf8Bytes c ++ bs) <$> percentDecodeBytes rest := by
  rw [percentDecodeBytes.eq_def]
  simp only [if_neg h]
  cases percentDecodeBytes rest <;> rfl

theorem percentDecodeBytes_escape {b : Nat} (hb : b < 256) (rest : List Char) :
    percentDecodeBytes (escapeByte b ++ rest)
      = (fun bs => b :: bs) <$> percentDecodeBytes rest := by
  show percentDecodeBytes ('%' :: toHexDigit (b / 16) :: toHexDigit (b % 16) :: rest) = _
  rw [percentDecodeBytes.eq_2, if_pos rfl]
  rw [hexVal_toHexDigit (show b / 16 < 16 by omega),
    hexVal_toHexDigit (show b % 16 < 16 by omega)]
  have hb16 : 16 * (b / 16) + b % 16 = b := by omega
  cases percentDecodeBytes rest <;> simp [hb16]

theorem percentDecodeBytes_escapes (bs : List Nat) (h : ∀ b ∈ bs, b < 256)
    (tail : List Char) :
    percentDecodeBytes ((bs.map escapeByte).flatten ++ tail)
      = (fun r => bs ++ r) <$> percentDecodeBytes tail := by
  induction bs with
  | nil =>
    simp only [List.map_nil, List.flatten_nil, List.nil_append]
    cases percentDecodeBytes tail <;> rfl
  | cons b bs2 ih =>
    simp only [List.map_cons, List.flatten_cons, List.append_assoc]
    rw [percentDecodeBytes_escape (h b (List.mem_cons_self b bs2)) _,
      ih fun x hx => h x (List.mem_cons_of_mem b hx)]
    cases percentDecodeBytes tail <;> rfl

theorem percentDecodeBytes_encode (cs : List Char) :
    percentDecodeBytes ((cs.map encodeCharL).flatten)
      = some ((cs.map utf8Bytes).flatten) := by
  induction cs with
  | nil => rfl
  | cons c rest ih =>
    simp only [List.map_cons, List.flatten_cons]
    by_cases hu : isUriUnreserved c
    · have hc : ¬ c = '%' := by
        intro he
        rw [he] at hu
        exact absurd hu (by decide)
      rw [encodeCharL, if_pos hu, List.singleton_append,
        percentDecodeBytes_cons_not_pct hc, ih]
      rfl
    · rw [encodeCharL, if_neg hu,
        percentDecodeBytes_escapes (utf8Bytes c) (utf8Bytes_lt_256 c) _, ih]
      rfl

theorem utf8Decode_append (c : Char) (bs : List Nat) :
    utf8Decode (utf8Bytes c ++ bs) = (fun cs => c :: cs) <$> utf8Decode bs := by
  have hv := char_toNat_valid c
  have hlt := char_toNat_lt c
  by_cases h1 : c.toNat < 0x80
  · rw [utf8Bytes, if_pos h1, List.singleton_append, utf8Decode.eq_2,
      if_pos h1, Char.ofNat_toNat]
  · by_cases h2 : c.toNat < 0x800
    · rw [utf8Bytes, if_neg h1, if_pos h2, List.cons_append,
        List.singleton_append, utf8Decode.eq_2,
        if_neg (show ¬ 0xc0 + c.toNat / 64 < 0x80 by omega),
        if_neg (show ¬ 0xc0 + c.toNat / 64 < 0xc2 by omega),
        if_pos (show 0xc0 + c.toNat / 64 < 0xe0 by omega),
        utf8Tail.eq_2,
        if_pos (show isContByte (0x80 + c.toNat % 64) = true by
          simp only [isContByte, Bool.and_eq_true, decide_eq_true_eq]
          omega),
        show (0xc0 + c.toNat / 64 - 0xc0) * 64 + (0x80 + c.toNat % 64 - 0x80)
          = c.toNat by omega,
        if_pos (show 0x80 ≤ c.toNat ∧ (c.toNat < 0xd800 ∨
            (0xe000 ≤ c.toNat ∧ c.toNat ≤ 0x10ffff)) by
          refine ⟨by omega, ?_⟩
          rcases hv with h | h
          · exact Or.inl (by omega)
          · exact Or.inr ⟨by omega, by omega⟩),
        Char.ofNat_toNat]
    · by_cases h3 : c.toNat < 0x10000
      · rw [utf8Bytes, if_neg h1, if_neg h2, if_pos h3, List.cons_append,
          List.cons_append, List.singleton_append, utf8Decode.eq_2,
          if_neg (show ¬ 0xe0 + c.toNat / 4096 < 0x80 by omega),
          if_neg (show ¬ 0xe0 + c.toNat / 4096 < 0xc2 by omega),
          if_neg (show ¬ 0xe0 + c.toNat / 4096 < 0xe0 by omega),
          if_pos (show 0xe0 + c.toNat / 4096 < 0xf0 by omega),
          utf8Tail.eq_3,
          if_pos (show isContByte (0x80 + c.toNat / 64 % 64) = true by
            simp only [isContByte, Bool.and_eq_true, decide_eq_true_eq]
            omega),
          utf8Tail.eq_2,
          if_pos (show isContByte (0x80 + c.toNat % 64) = true by
            simp only [isContByte, Bool.and_eq_true, decide_eq_true_eq]
            omega),
          show ((0xe0 + c.toNat / 4096 - 0xe0) * 64 +
              (0x80 + c.toNat / 64 % 64 - 0x80)) * 64 +
              (0x80 + c.toNat % 64 - 0x80) = c.toNat by omega,
          if_pos (show 0x800 ≤ c.toNat ∧ (c.toNat < 0xd800 ∨
              (0xe000 ≤ c.toNat ∧ c.toNat ≤ 0x10ffff)) by
            refine ⟨by omega, ?_⟩
            rcases hv with h | h
            · exact Or.inl (by omega)
            · exact Or.inr ⟨by omega, by omega⟩),
          Char.ofNat_toNat]
      · rw [utf8Bytes, if_neg h1, if_neg h2, if_neg h3, List.cons_append,
          List.cons_append, List.cons_append, List.singleton_append,
          utf8Decode.eq_2,
          if_neg (show ¬ 0xf0 + c.toNat / 262144 < 0x80 by omega),
          if_neg (show ¬ 0xf0 + c.toNat / 262144 < 0xc2 by omega),
          if_neg (show ¬ 0xf0 + c.toNat / 262144 < 0xe0 by omega),
          if_neg (show ¬ 0xf0 + c.toNat / 262144 < 0xf0 by omega),
          if_pos (show 0xf0 + c.toNat / 262144 < 0xf5 by omega),
          utf8Tail.eq_3,
          if_pos (show isContByte (0x80 + c.toNat / 4096 % 64) = true by
            simp only [isContByte, Bool.and_eq_true, decide_eq_true_eq]
            omega),
          utf8Tail.eq_3,
          if_pos (show isContByte (0x80 + c.toNat / 64 % 64) = true by
            simp only [isContByte, Bool.and_eq_true, decide_eq_true_eq]
            omega),
          utf8Tail.eq_2,
          if_pos (show isContByte (0x80 + c.toNat % 64) = true by
            simp only [isContByte, Bool.and_eq_true, decide_eq_true_eq]
            omega),
          show (((0xf0 + c.toNat / 262144 - 0xf0) * 64 +
              (0x80 + c.toNat / 4096 % 64 - 0x80)) * 64 +
              (0x80 + c.toNat / 64 % 64 - 0x80)) * 64 +
              (0x80 + c.toNat % 64 - 0x80) = c.toNat by omega,
          if_pos (show 0x10000 ≤ c.toNat ∧ (c.toNat < 0xd800 ∨
              (0xe000 ≤ c.toNat ∧ c.toNat ≤ 0x10ffff)) by
            refine ⟨by omega, ?_⟩
            rcases hv with h | h
            · exact Or.inl (by omega)
            · exact Or.inr ⟨by omega, by omega⟩),
          Char.ofNat_toNat]

theorem utf8Decode_flatten (cs : List Char) :
    utf8Decode ((cs.map utf8Bytes).flatten) = some cs := by
  induction cs with
  | nil => rw [List.map_nil, List.flatten_nil, utf8Decode]
  | cons c rest ih =>
    simp only [List.map_cons, List.flatten_cons]
    rw [utf8Decode_append, ih]
    rfl

theorem mk_data (s : String) : String.mk s.data = s := rfl

theorem decode_encode (t : String) :
    decodeURIComponent (encodeURIComponent t) = some t := by
  unfold decodeURIComponent encodeURIComponent
  show (percentDecodeBytes ((t.data.map encodeCharL).flatten)).bind _ = _
  rw [percentDecodeBytes_encode]
  show (utf8Decode ((t.data.map utf8Bytes).flatten)).bind _ = _
  rw [utf8Decode_flatten]
  show some (String.mk t.data) = some t
  rw [mk_data]

theorem toHexDigit_ne_bar {k : Nat} (h : k < 16) : toHexDigit k ≠ '|' := by
  interval_cases k <;> decide

theorem bar_not_mem_encode (t : String) : '|' ∉ (encodeURIComponent t).data := by
  intro hm
  have hm2 : '|' ∈ (t.data.map encodeCharL).flatten := hm
  rw [List.mem_flatten] at hm2
  obtain ⟨l, hl, hmem⟩ := hm2
  rw [List.mem_map] at hl
  obtain ⟨c, _, rfl⟩ := hl
  by_cases hu : isUriUnreserved c
  · rw [encodeCharL, if_pos hu] at hmem
    simp only [List.mem_singleton] at hmem
    rw [← hmem] at hu
    exact absurd hu (by decide)
  · rw [encodeCharL, if_neg hu] at hmem
    rw [List.mem_flatten] at hmem
    obtain ⟨e, he, hmem2⟩ := hmem
    rw [List.mem_map] at he
    obtain ⟨b, hb, rfl⟩ := he
    have hblt := utf8Bytes_lt_256 c b hb
    unfold escapeByte at hmem2
    simp only [List.mem_cons, List.mem_singleton, List.not_mem_nil,
      or_false] at hmem2
    rcases hmem2 with h | h | h
    · exact absurd h.symm (by decide)
    · exact toHexDigit_ne_bar (show b / 16 < 16 by omega) h.symm
    · exact toHexDigit_ne_bar (show b % 16 < 16 by omega) h.symm

/-! ## Claim theorems -/

/-- Full case analysis of `importPeerInsight`: every failure leaves the
store untouched; success appends exactly one entry (with non-blank text,
not yet present in the bucket) to the importer's own bucket for the
imported lesson. -/
theorem import_characterization (s : Store) (p : String) (L : Nat)
    (r : ImportResult) (s2 : Store) (h : importPeerInsight s p L = (r, s2)) :
    (r.success = false ∧ s2 = s) ∨
    (r.success = true ∧ r.message = "Peer insight added successfully!" ∧
      ∃ g e, s.group = some g ∧ jsTrim e.text ≠ "" ∧
        (¬ ∃ x ∈ s.buckets g L, x.student = e.student ∧ x.text = e.text) ∧
        s2 = { s with buckets := updateBucket s.buckets g L (s.buckets g L ++ [e]) }) := by
  simp only [importPeerInsight] at h
  split at h
  · rw [Prod.mk.injEq] at h
    obtain ⟨hr, hs⟩ := h
    subst hr hs
    exact Or.inl ⟨rfl, rfl⟩
  · split at h
    · rename_i x1 x2 cv tv hpc hpt
      split at h
      · rw [Prod.mk.injEq] at h
        obtain ⟨hr, hs⟩ := h
        subst hr hs
        exact Or.inl ⟨rfl, rfl⟩
      · rename_i hgroup
        split at h
        · rw [Prod.mk.injEq] at h
          obtain ⟨hr, hs⟩ := h
          subst hr hs
          exact Or.inl ⟨rfl, rfl⟩
        · rename_i hchap
          split at h
          · rw [Prod.mk.injEq] at h
            obtain ⟨hr, hs⟩ := h
            subst hr hs
            exact Or.inl ⟨rfl, rfl⟩
          · rename_i text hdec
            split at h
            · rw [Prod.mk.injEq] at h
              obtain ⟨hr, hs⟩ := h
              subst hr hs
              exact Or.inl ⟨rfl, rfl⟩
            · rename_i htrim
              split at h
              · rw [Prod.mk.injEq] at h
                obtain ⟨hr, hs⟩ := h
                subst hr hs
                exact Or.inl ⟨rfl, rfl⟩
              · rename_i hdup
                rw [Prod.mk.injEq] at h
                obtain ⟨hr, hs⟩ := h
                subst hr hs
                refine Or.inr ⟨rfl, rfl, ?_⟩
                rw [ne_eq, not_not] at hgroup
                have hcv : cv = (L : Int) := by
                  rwa [ne_eq, not_not] at hchap
                rw [hcv, Int.toNat_natCast] at hdup
                refine ⟨(jsSplit p '|').getD 0 "",
                  { text := text, timestamp := tv,
                    student := (jsSplit p '|').getD 4 "",
                    mastery := some (decide ((jsSplit p '|').getD 5 "" = "M")) },
                  hgroup, htrim, ?_, ?_⟩
                · intro hex
                  apply hdup
                  simp only [List.any_eq_true, Bool.and_eq_true, decide_eq_true_eq]
                  obtain ⟨x, hx, hx1, hx2⟩ := hex
                  exact ⟨x, hx, hx1, hx2⟩
                · rw [hcv, Int.toNat_natCast]
    · rw [Prod.mk.injEq] at h
      obtain ⟨hr, hs⟩ := h
      subst hr hs
      exact Or.inl ⟨rfl, rfl⟩

/-- C2: whenever `importPeerInsight` returns a failure, the whole storage
state is unchanged; when it returns success, the mutation is exactly the
append of one entry to the importer's current `(group, lesson)` bucket,
and no other group or lesson key is touched. -/
theorem claim_C2 (s : Store) (p : String) (L : Nat) (r : ImportResult)
    (s2 : Store) (h : importPeerInsight s p L = (r, s2)) :
    (r.success = false → s2 = s) ∧
    (r.success = true → ∃ g e, s.group = some g ∧
      s2 = { s with buckets := updateBucket s.buckets g L (s.buckets g L ++ [e]) }) := by
  rcases import_characterization s p L r s2 h with ⟨hf, hs⟩ |
    ⟨ht, _, g, e, hg, _, _, hs⟩
  · refine ⟨fun _ => hs, fun hc => ?_⟩
    rw [hf] at hc
    exact Bool.noConfusion hc
  · refine ⟨fun hc => ?_, fun _ => ⟨g, e, hg, hs⟩⟩
    rw [ht] at hc
    exact Bool.noConfusion hc

/-- Witness for C2 at a concrete malformed payload. -/
theorem claim_C2_witness : (importPeerInsight initStore "x" 0).2 = initStore := by
  have h := claim_C2 initStore "x" 0 (importPeerInsight initStore "x" 0).1
    (importPeerInsight initStore "x" 0).2 rfl
  exact h.1 rfl

/-- The two mismatch messages can never coincide (they start with
different words). -/
theorem groupMsg_ne_lessonMsg (g : String) (c : Option String) (ch : Int)
    (L : Nat) : groupMismatchMsg g c ≠ lessonMismatchMsg ch L := by
  intro he
  have hd := congrArg String.data he
  unfold groupMismatchMsg lessonMismatchMsg at hd
  simp [String.data_append] at hd

/-- C8: fewer than six fields fails with the invalid-format message; six
or more fields with a non-numeric lesson or timestamp field fails with
the invalid-timestamp-or-chapter message; storage is unchanged in both
cases. -/
theorem claim_C8 (s : Store) (p : String) (L : Nat) :
    ((jsSplit p '|').length < 6 →
      importPeerInsight s p L
        = ({ success := false,
             message := "Invalid format. Paste the full message." }, s)) ∧
    (¬ (jsSplit p '|').length < 6 →
      (jsParseInt ((jsSplit p '|').getD 1 "") = none ∨
        jsParseInt ((jsSplit p '|').getD 2 "") = none) →
      importPeerInsight s p L
        = ({ success := false,
             message := "Invalid timestamp or chapter." }, s)) := by
  constructor
  · intro hlt
    simp only [importPeerInsight]
    rw [if_pos hlt]
  · intro hge hbad
    simp only [importPeerInsight]
    rw [if_neg hge]
    split
    · rename_i cv tv hpc hpt
      rcases hbad with hn | hn
      · rw [hn] at hpc
        exact Option.noConfusion hpc
      · rw [hn] at hpt
        exact Option.noConfusion hpt
    · rfl

/-- Witness for C8 at concrete malformed payloads. -/
theorem claim_C8_witness :
    importPeerInsight initStore "a|b|c" 0
      = ({ success := false,
           message := "Invalid format. Paste the full message." }, initStore) ∧
    importPeerInsight initStore "a|b|c|d|e|f" 0
      = ({ success := false,
           message := "Invalid timestamp or chapter." }, initStore) :=
  ⟨(claim_C8 initStore "a|b|c" 0).1 (by decide),
   (claim_C8 initStore "a|b|c|d|e|f" 0).2 (by decide) (Or.inl rfl)⟩

/-- C3: a structurally valid payload whose group differs from the active
group and whose lesson differs from the current lesson is rejected with
the group-mismatch message (naming both groups), never with the
lesson-mismatch message: the group gate runs first. -/
theorem claim_C3 (s : Store) (p : String) (L : Nat) (cv tv : Int)
    (hlen : ¬ (jsSplit p '|').length < 6)
    (hpc : jsParseInt ((jsSplit p '|').getD 1 "") = some cv)
    (hpt : jsParseInt ((jsSplit p '|').getD 2 "") = some tv)
    (hg : s.group ≠ some ((jsSplit p '|').getD 0 ""))
    (_hc : cv ≠ (L : Int)) :
    importPeerInsight s p L
      = ({ success := false,
           message := groupMismatchMsg ((jsSplit p '|').getD 0 "") s.group }, s) ∧
    groupMismatchMsg ((jsSplit p '|').getD 0 "") s.group
      ≠ lessonMismatchMsg cv L := by
  refine ⟨?_, groupMsg_ne_lessonMsg _ _ _ _⟩
  simp only [importPeerInsight, hpc, hpt]
  rw [if_neg hlen, if_pos hg]

/-- Witness for C3: wrong group and wrong lesson at concrete values. -/
theorem claim_C3_witness :
    importPeerInsight { initStore with group := some "9C" } "8B|2|1|t|s|M" 3
      = ({ success := false,
           message := groupMismatchMsg "8B" (some "9C") }, 
         { initStore with group := some "9C" }) := by
  have h := claim_C3 { initStore with group := some "9C" } "8B|2|1|t|s|M" 3
    2 1 (by decide) rfl rfl (by decide) (by decide)
  exact h.1

/-- C10: with no active group, every structurally valid payload fails at
the group gate, the importer's group rendering as the text `null`, and
nothing is stored. -/
theorem claim_C10 (s : Store) (p : String) (L : Nat) (cv tv : Int)
    (hnone : s.group = none)
    (hlen : ¬ (jsSplit p '|').length < 6)
    (hpc : jsParseInt ((jsSplit p '|').getD 1 "") = some cv)
    (hpt : jsParseInt ((jsSplit p '|').getD 2 "") = some tv) :
    importPeerInsight s p L
      = ({ success := false,
           message := groupMismatchMsg ((jsSplit p '|').getD 0 "") none }, s) ∧
    jsRender (none : Option String) = "null" := by
  have hg : s.group ≠ some ((jsSplit p '|').getD 0 "") := by
    rw [hnone]
    exact fun he => Option.noConfusion he
  refine ⟨?_, rfl⟩
  simp only [importPeerInsight, hpc, hpt]
  rw [if_neg hlen, if_pos hg, hnone]

/-- Witness for C10 at a concrete payload. -/
theorem claim_C10_witness :
    importPeerInsight initStore "8B|3|1|t|s|M" 3
      = ({ success := false, message := groupMismatchMsg "8B" none },
         initStore) := by
  have h := claim_C10 initStore "8B|3|1|t|s|M" 3 3 1 rfl (by decide) rfl rfl
  exact h.1

/-- C7: with no active group `loadPeerReflections` returns the empty
list; with an active (non-empty) group it returns exactly the entries of
that group's bucket for the lesson, in bucket order, minus the entries
whose student equals the stored display name — so no returned entry can
carry the caller's own name and no entry of any other bucket appears. -/
theorem claim_C7 (s : Store) (L : Nat) :
    (s.group = none → loadPeerReflections s L = []) ∧
    (∀ g, s.group = some g → g ≠ "" →
      loadPeerReflections s L = (s.buckets g L).filter (fun r =>
        match s.studentName with
        | some myName => r.student != myName
        | none => true) ∧
      (∀ e ∈ loadPeerReflections s L, e ∈ s.buckets g L) ∧
      (∀ n e, s.studentName = some n → e ∈ loadPeerReflections s L →
        e.student ≠ n)) := by
  constructor
  · intro hnone
    unfold loadPeerReflections
    rw [hnone]
  · intro g hg hne
    have heq : loadPeerReflections s L = (s.buckets g L).filter (fun r =>
        match s.studentName with
        | some myName => r.student != myName
        | none => true) := by
      unfold loadPeerReflections
      rw [hg]
      simp only [if_neg hne]
    refine ⟨heq, ?_, ?_⟩
    · intro e he
      rw [heq] at he
      exact (List.mem_filter.mp he).1
    · intro n e hn he
      rw [heq] at he
      have hp := (List.mem_filter.mp he).2
      rw [hn] at hp
      simpa [bne_iff_ne] using hp

/-- Witness for C7 at a concrete store holding a peer entry and an own
entry. -/
theorem claim_C7_witness :
    loadPeerReflections initStore 1 = [] ∧
    loadPeerReflections
      { group := some "8B", studentName := some "Ama",
        drafts := fun _ => none,
        buckets := fun g c =>
          if g = "8B" ∧ c = 1 then
            [{ text := "mine", timestamp := 1, student := "Ama",
               mastery := none },
             { text := "peer", timestamp := 2, student := "Kofi",
               mastery := none }]
          else [] } 1
      = [{ text := "peer", timestamp := 2, student := "Kofi",
           mastery := none }] := by
  constructor
  · exact (claim_C7 initStore 1).1 rfl
  · have h := ((claim_C7
      { group := some "8B", studentName := some "Ama",
        drafts := fun _ => none,
        buckets := fun g c =>
          if g = "8B" ∧ c = 1 then
            [{ text := "mine", timestamp := 1, student := "Ama",
               mastery := none },
             { text := "peer", timestamp := 2, student := "Kofi",
               mastery := none }]
          else [] } 1).2 "8B" rfl (by decide)).1
    rw [h]
    decide

/-- Full case analysis of `saveReflectionToGroup`: either a no-op, or the
append of one freshly-trimmed entry to the active group's bucket. -/
theorem save_characterization (s : Store) (now : Int) (c : Nat) (t : String) :
    saveReflectionToGroup s now c t = s ∨
    ∃ g, s.group = some g ∧ g ≠ "" ∧ jsTrim t ≠ "" ∧
      (¬ ∃ x ∈ s.buckets g c,
        x.student = jsOrDefault s.studentName "Anonymous" ∧ x.text = jsTrim t) ∧
      saveReflectionToGroup s now c t
        = { s with buckets := updateBucket s.buckets g c (s.buckets g c ++
            [{ text := jsTrim t, timestamp := now,
               student := jsOrDefault s.studentName "Anonymous",
               mastery := none }]) } := by
  simp only [saveReflectionToGroup]
  split
  · exact Or.inl rfl
  · rename_i g hg
    split
    · exact Or.inl rfl
    · rename_i hcond
      rw [not_or] at hcond
      split
      · exact Or.inl rfl
      · rename_i hdup
        refine Or.inr ⟨g, hg, hcond.1, hcond.2, ?_, rfl⟩
        intro hex
        apply hdup
        simp only [List.any_eq_true, Bool.and_eq_true, decide_eq_true_eq]
        obtain ⟨x, hx, hx1, hx2⟩ := hex
        exact ⟨x, hx, hx1, hx2⟩

/-- `saveReflectionToGroup` is a no-op when the entry is already present. -/
theorem save_eq_of_dup (s : Store) (now : Int) (c : Nat) (t : String)
    (g : String) (hg : s.group = some g)
    (hdup : ∃ x ∈ s.buckets g c,
      x.student = jsOrDefault s.studentName "Anonymous" ∧ x.text = jsTrim t) :
    saveReflectionToGroup s now c t = s := by
  simp only [saveReflectionToGroup]
  rw [hg]
  simp only
  split
  · rfl
  · have hany : ((s.buckets g c).any fun item =>
        decide (item.student = jsOrDefault s.studentName "Anonymous") &&
          decide (item.text = jsTrim t)) = true := by
      simp only [List.any_eq_true, Bool.and_eq_true, decide_eq_true_eq]
      obtain ⟨x, hx, hx1, hx2⟩ := hdup
      exact ⟨x, hx, hx1, hx2⟩
    rw [if_pos hany]

/-- `saveReflectionToGroup` appends when the entry is fresh. -/
theorem save_eq_of_fresh (s : Store) (now : Int) (c : Nat) (t : String)
    (g : String) (hg : s.group = some g) (hgne : ¬ g = "")
    (ht : ¬ jsTrim t = "")
    (hfresh : ¬ ∃ x ∈ s.buckets g c,
      x.student = jsOrDefault s.studentName "Anonymous" ∧ x.text = jsTrim t) :
    saveReflectionToGroup s now c t
      = { s with buckets := updateBucket s.buckets g c (s.buckets g c ++
          [{ text := jsTrim t, timestamp := now,
             student := jsOrDefault s.studentName "Anonymous",
             mastery := none }]) } := by
  simp only [saveReflectionToGroup]
  rw [hg]
  simp only
  rw [if_neg (by
    rw [not_or]
    exact ⟨hgne, ht⟩)]
  rw [if_neg (by
    simp only [List.any_eq_true, Bool.and_eq_true, decide_eq_true_eq]
    intro hex
    obtain ⟨x, hx, hx1, hx2⟩ := hex
    exact hfresh ⟨x, hx, hx1, hx2⟩)]

/-- The dedup invariant of the spec: no bucket holds two entries with the
same `(student, text)` pair. -/
def NodupBuckets (s : Store) : Prop :=
  ∀ g c, (s.buckets g c).Pairwise fun a b =>
    ¬ (a.student = b.student ∧ a.text = b.text)

/-- Membership in an updated bucket table. -/
theorem mem_updateBucket {f : String → Nat → List ReflectionEntry}
    {g : String} {c : Nat} {v : List ReflectionEntry} {g2 : String} {c2 : Nat} :
    updateBucket f g c v g2 c2 = if g2 = g ∧ c2 = c then v else f g2 c2 := rfl

/-- Appending a fresh entry preserves pairwise distinctness. -/
theorem pairwise_append_fresh {l : List ReflectionEntry} {e : ReflectionEntry}
    (hp : l.Pairwise fun a b => ¬ (a.student = b.student ∧ a.text = b.text))
    (hfresh : ¬ ∃ x ∈ l, x.student = e.student ∧ x.text = e.text) :
    (l ++ [e]).Pairwise fun a b =>
      ¬ (a.student = b.student ∧ a.text = b.text) := by
  rw [List.pairwise_append]
  refine ⟨hp, List.pairwise_singleton _ _, ?_⟩
  intro a ha b hb
  simp only [List.mem_singleton] at hb
  subst hb
  intro hab
  exact hfresh ⟨a, ha, hab.1, hab.2⟩

theorem nodup_save (s : Store) (now : Int) (c : Nat) (t : String)
    (h : NodupBuckets s) : NodupBuckets (saveReflectionToGroup s now c t) := by
  rcases save_characterization s now c t with heq | ⟨g, hg, _, _, hfresh, heq⟩
  · rw [heq]
    exact h
  · rw [heq]
    intro g2 c2
    show (updateBucket s.buckets g c _ g2 c2).Pairwise _
    rw [mem_updateBucket]
    split
    · exact pairwise_append_fresh (h g c) (by
        intro hex
        obtain ⟨x, hx, hx1, hx2⟩ := hex
        exact hfresh ⟨x, hx, hx1, hx2⟩)
    · exact h g2 c2

theorem nodup_import (s : Store) (p : String) (L : Nat)
    (h : NodupBuckets s) : NodupBuckets (importPeerInsight s p L).2 := by
  rcases import_characterization s p L (importPeerInsight s p L).1
      (importPeerInsight s p L).2 rfl with ⟨_, heq⟩ |
    ⟨_, _, g, e, hg, _, hfresh, heq⟩
  · rw [heq]
    exact h
  · rw [heq]
    intro g2 c2
    show (updateBucket s.buckets g L _ g2 c2).Pairwise _
    rw [mem_updateBucket]
    split
    · exact pairwise_append_fresh (h g L) hfresh
    · exact h g2 c2

/-- A pairwise-distinct bucket holds at most one entry matching a given
`(student, text)` pair. -/
theorem countP_le_one_of_pairwise {l : List ReflectionEntry} {a τ : String}
    (hp : l.Pairwise fun x y => ¬ (x.student = y.student ∧ x.text = y.text)) :
    l.countP (fun r => decide (r.student = a) && decide (r.text = τ)) ≤ 1 := by
  induction l with
  | nil => simp
  | cons x xs ih =>
    rw [List.countP_cons]
    obtain ⟨hx, hxs⟩ := List.pairwise_cons.mp hp
    by_cases hm : x.student = a ∧ x.text = τ
    · have h0 : xs.countP
          (fun r => decide (r.student = a) && decide (r.text = τ)) = 0 := by
        rw [List.countP_eq_zero]
        intro y hy hpy
        simp only [Bool.and_eq_true, decide_eq_true_eq] at hpy
        exact hx y hy ⟨hm.1.trans hpy.1.symm, hm.2.trans hpy.2.symm⟩
      rw [h0]
      split <;> omega
    · have h1 := ih hxs
      have hb : (decide (x.student = a) && decide (x.text = τ)) = false := by
        simp only [Bool.and_eq_false_iff, decide_eq_false_iff_not]
        by_cases h1x : x.student = a
        · exact Or.inr fun h2x => hm ⟨h1x, h2x⟩
        · exact Or.inl h1x
      rw [hb]
      simpa using h1

/-- C5: no bucket ever holds two entries with the same `(student, text)`:
the invariant holds in the fresh store, is preserved by every save and
every import, and saving twice with texts of equal trim under the same
group and lesson leaves exactly one matching entry. -/
theorem claim_C5 :
    NodupBuckets initStore ∧
    (∀ s now c t, NodupBuckets s →
      NodupBuckets (saveReflectionToGroup s now c t)) ∧
    (∀ s p L, NodupBuckets s → NodupBuckets (importPeerInsight s p L).2) ∧
    (∀ s now1 now2 c t1 t2 g, NodupBuckets s → s.group = some g → ¬ g = "" →
      ¬ jsTrim t1 = "" → jsTrim t2 = jsTrim t1 →
      List.countP
        (fun r => decide (r.student = jsOrDefault s.studentName "Anonymous") &&
          decide (r.text = jsTrim t1))
        ((saveReflectionToGroup (saveReflectionToGroup s now1 c t1) now2 c t2).buckets g c)
        = 1) := by
  refine ⟨fun _ _ => List.Pairwise.nil, nodup_save, nodup_import, ?_⟩
  intro s now1 now2 c t1 t2 g hnd hg hgne ht1 ht2
  by_cases hdup : ∃ x ∈ s.buckets g c,
    x.student = jsOrDefault s.studentName "Anonymous" ∧ x.text = jsTrim t1
  · rw [save_eq_of_dup s now1 c t1 g hg hdup,
      save_eq_of_dup s now2 c t2 g hg (by rwa [ht2])]
    have hle := countP_le_one_of_pairwise (hnd g c)
      (a := jsOrDefault s.studentName "Anonymous") (τ := jsTrim t1)
    obtain ⟨x, hx, hx1, hx2⟩ := hdup
    have hge : 0 < (s.buckets g c).countP
        (fun r => decide (r.student = jsOrDefault s.studentName "Anonymous") &&
          decide (r.text = jsTrim t1)) := by
      rw [List.countP_pos_iff]
      exact ⟨x, hx, by simp [hx1, hx2]⟩
    omega
  · rw [save_eq_of_fresh s now1 c t1 g hg hgne ht1 hdup]
    rw [save_eq_of_dup _ now2 c t2 g ?hg2 ?hdup2]
    case hg2 => exact hg
    case hdup2 =>
      show ∃ x ∈ updateBucket s.buckets g c _ g c, _
      rw [mem_updateBucket, if_pos ⟨rfl, rfl⟩]
      refine ⟨_, List.mem_append_right _ (List.mem_singleton.mpr rfl),
        rfl, ?_⟩
      exact ht2.symm
    show (updateBucket s.buckets g c _ g c).countP _ = 1
    rw [mem_updateBucket, if_pos ⟨rfl, rfl⟩, List.countP_append]
    have h0 : (s.buckets g c).countP
        (fun r => decide (r.student = jsOrDefault s.studentName "Anonymous") &&
          decide (r.text = jsTrim t1)) = 0 := by
      rw [List.countP_eq_zero]
      intro y hy hpy
      simp only [Bool.and_eq_true, decide_eq_true_eq] at hpy
      exact hdup ⟨y, hy, hpy.1, hpy.2⟩
    rw [h0]
    simp

/-- Witness for C5: a concrete double save stores one entry. -/
theorem claim_C5_witness :
    List.countP
      (fun r => decide (r.student = "Anonymous") && decide (r.text = "hi"))
      ((saveReflectionToGroup (saveReflectionToGroup { initStore with group := some "8B" } 1 2 " hi ") 2 2 "hi").buckets "8B" 2)
      = 1 := by
  have h := claim_C5.2.2.2 { initStore with group := some "8B" } 1 2 2
    " hi " "hi" "8B" (fun _ _ => List.Pairwise.nil) rfl (by decide)
    (by decide) (by decide)
  exact h

/-- The invariant claimed by the spec for C6: every stored entry has
non-empty text equal to its own trim. -/
def EveryEntryTrimmed (s : Store) : Prop :=
  ∀ g c, ∀ e ∈ s.buckets g c, e.text ≠ "" ∧ jsTrim e.text = e.text

/-- The invariant that actually holds: every stored entry has text whose
trim is non-empty (hence the text itself is non-empty). -/
def EveryEntryTextWF (s : Store) : Prop :=
  ∀ g c, ∀ e ∈ s.buckets g c, e.text ≠ "" ∧ jsTrim e.text ≠ ""

/-- An element of an updated store's bucket is either one of the new
bucket's entries or was already present under the same key. -/
theorem mem_store_update {s : Store} {g : String} {c : Nat}
    {v : List ReflectionEntry} {g2 : String} {c2 : Nat} {e : ReflectionEntry}
    (he : e ∈ ({ s with buckets := updateBucket s.buckets g c v } : Store).buckets g2 c2) :
    (g2 = g ∧ c2 = c ∧ e ∈ v) ∨ e ∈ s.buckets g2 c2 := by
  have he2 : e ∈ updateBucket s.buckets g c v g2 c2 := he
  rw [mem_updateBucket] at he2
  split at he2
  · rename_i hcond
    exact Or.inl ⟨hcond.1, hcond.2, he2⟩
  · exact Or.inr he2

/-- C6 counterexample: a payload whose percent-decoded text carries
leading whitespace is imported verbatim, so the stored entry is not equal
to its own trim: the claimed invariant, though true of the fresh store,
is not preserved by `importPeerInsight`. -/
theorem claim_C6_counterexample :
    EveryEntryTrimmed { initStore with group := some "g" } ∧
    ¬ EveryEntryTrimmed
      (importPeerInsight { initStore with group := some "g" }
        "g|0|5|%20hi|s|M" 0).2 := by
  constructor
  · intro g c e he
    simp [initStore] at he
  · intro h
    have hb : (importPeerInsight { initStore with group := some "g" }
        "g|0|5|%20hi|s|M" 0).2.buckets "g" 0
        = [{ text := " hi", timestamp := 5, student := "s",
             mastery := some true }] := by
      simp [importPeerInsight, jsSplit, splitOnChar, jsParseInt,
        jsParseIntChars, jsParseDigits, digitsVal, isJsWhitespace,
        decodeURIComponent, percentDecodeBytes, hexVal, utf8Bytes,
        utf8Decode, utf8Tail, isContByte, jsTrim, jsTrimList,
        dropTrailingWs, initStore, updateBucket]
    have hmem : ({ text := " hi", timestamp := 5, student := "s",
                   mastery := some true } : ReflectionEntry)
        ∈ (importPeerInsight { initStore with group := some "g" }
          "g|0|5|%20hi|s|M" 0).2.buckets "g" 0 := by
      rw [hb]
      exact List.mem_singleton.mpr rfl
    have hx := (h "g" 0 _ hmem).2
    exact absurd hx (by decide)

/-- C6 amended: every stored entry has non-empty text with non-empty
trim; entries appended by `saveReflectionToGroup` are additionally equal
to their own trim, while `importPeerInsight` stores the decoded payload
text verbatim (which may carry surrounding whitespace). -/
theorem claim_C6_amended :
    (∀ s now c t, EveryEntryTextWF s →
      EveryEntryTextWF (saveReflectionToGroup s now c t)) ∧
    (∀ s p L, EveryEntryTextWF s →
      EveryEntryTextWF (importPeerInsight s p L).2) ∧
    (∀ s now c t g2 c2, ∀ e ∈ (saveReflectionToGroup s now c t).buckets g2 c2,
      e ∈ s.buckets g2 c2 ∨ (e.text = jsTrim e.text ∧ e.text ≠ "")) := by
  refine ⟨?_, ?_, ?_⟩
  · intro s now c t hwf
    rcases save_characterization s now c t with heq | ⟨g, _, _, ht, _, heq⟩
    · rw [heq]
      exact hwf
    · rw [heq]
      intro g2 c2 e he
      rcases mem_store_update he with ⟨_, _, hin⟩ | hin
      · rcases List.mem_append.mp hin with hin1 | hin1
        · exact hwf g c e hin1
        · rw [List.mem_singleton] at hin1
          subst hin1
          refine ⟨ne_empty_of_jsTrim ?_, ?_⟩ <;>
            simp only [jsTrim_idem] <;> exact ht
      · exact hwf g2 c2 e hin
  · intro s p L hwf
    rcases import_characterization s p L (importPeerInsight s p L).1
        (importPeerInsight s p L).2 rfl with ⟨_, heq⟩ |
      ⟨_, _, g, e, _, ht, _, heq⟩
    · rw [heq]
      exact hwf
    · rw [heq]
      intro g2 c2 x hx
      rcases mem_store_update hx with ⟨_, _, hin⟩ | hin
      · rcases List.mem_append.mp hin with hin1 | hin1
        · exact hwf g L x hin1
        · rw [List.mem_singleton] at hin1
          subst hin1
          exact ⟨ne_empty_of_jsTrim ht, ht⟩
      · exact hwf g2 c2 x hin
  · intro s now c t g2 c2 e he
    rcases save_characterization s now c t with heq | ⟨g, _, _, ht, _, heq⟩
    · rw [heq] at he
      exact Or.inl he
    · rw [heq] at he
      rcases mem_store_update he with ⟨hg2, hc2, hin⟩ | hin
      · subst hg2 hc2
        rcases List.mem_append.mp hin with hin1 | hin1
        · exact Or.inl hin1
        · rw [List.mem_singleton] at hin1
          subst hin1
          refine Or.inr ⟨?_, ne_empty_of_jsTrim (by simpa [jsTrim_idem] using ht)⟩
          show jsTrim t = jsTrim (jsTrim t)
          rw [jsTrim_idem]
      · exact Or.inl hin

/-- Witness for the amended C6 at a concrete save. -/
theorem claim_C6_amended_witness :
    EveryEntryTextWF (saveReflectionToGroup
      { initStore with group := some "8B" } 1 2 "hi") := by
  apply claim_C6_amended.1
  intro g c e he
  simp [initStore] at he

/-- The operations that can touch the modelled storage slots: the three
groupManager mutators plus the UI writes to the display-name and
per-lesson draft slots. -/
inductive StoreOp where
  | setGroup (name : String)
  | save (now : Int) (chapter : Nat) (text : String)
  | importIns (payload : String) (chapter : Nat)
  | setName (v : String)
  | setDraft (chapter : Nat) (v : String)

/-- Apply one operation to the store. -/
def applyOp (s : Store) : StoreOp → Store
  | .setGroup name => setGroupId s name
  | .save now c t => saveReflectionToGroup s now c t
  | .importIns p c => (importPeerInsight s p c).2
  | .setName v => { s with studentName := some v }
  | .setDraft c v =>
    { s with drafts := fun c2 => if c2 = c then some v else s.drafts c2 }

/-- Run a sequence of operations from a given store. -/
def runOps (s : Store) (ops : List StoreOp) : Store :=
  ops.foldl applyOp s

/-- The well-formedness of the group slot: absent, or non-empty and equal
to its own trim. -/
def GroupWF (s : Store) : Prop :=
  s.group = none ∨ ∃ g, s.group = some g ∧ g ≠ "" ∧ jsTrim g = g

theorem groupWF_applyOp (s : Store) (op : StoreOp) (h : GroupWF s) :
    GroupWF (applyOp s op) := by
  cases op with
  | setGroup name =>
    show GroupWF (setGroupId s name)
    rw [setGroupId]
    split
    · exact Or.inr ⟨jsTrim name, rfl, by assumption, jsTrim_idem name⟩
    · exact h
  | save now c t =>
    show GroupWF (saveReflectionToGroup s now c t)
    rcases save_characterization s now c t with heq | ⟨g, _, _, _, _, heq⟩ <;>
      rw [heq] <;> exact h
  | importIns p c =>
    show GroupWF (importPeerInsight s p c).2
    rcases import_characterization s p c (importPeerInsight s p c).1
        (importPeerInsight s p c).2 rfl with ⟨_, heq⟩ |
      ⟨_, _, g, e, _, _, _, heq⟩ <;> rw [heq] <;> exact h
  | setName v => exact h
  | setDraft c v => exact h

theorem groupWF_runOps (s : Store) (ops : List StoreOp) (h : GroupWF s) :
    GroupWF (runOps s ops) := by
  induction ops generalizing s with
  | nil => exact h
  | cons op rest ih => exact ih (applyOp s op) (groupWF_applyOp s op h)

/-- C9: `setGroupId` ignores names that trim to empty, otherwise stores
the trimmed name as the sole group slot without touching any bucket, the
display name or the drafts; consequently along every operation sequence
from a fresh store the group slot is absent or a non-empty trimmed
string.  (A non-string argument, rejected by the `typeof` guard in the
source, is outside this typed embedding.) -/
theorem claim_C9 (s : Store) (name : String) :
    (jsTrim name = "" → setGroupId s name = s) ∧
    (jsTrim name ≠ "" →
      (setGroupId s name).group = some (jsTrim name) ∧
      (setGroupId s name).buckets = s.buckets ∧
      (setGroupId s name).studentName = s.studentName ∧
      (setGroupId s name).drafts = s.drafts) ∧
    (GroupWF initStore ∧ ∀ ops, GroupWF (runOps initStore ops)) := by
  refine ⟨?_, ?_, Or.inl rfl, fun ops => groupWF_runOps initStore ops (Or.inl rfl)⟩
  · intro h
    rw [setGroupId, if_neg (by simp [h])]
  · intro h
    rw [setGroupId, if_pos h]
    exact ⟨rfl, rfl, rfl, rfl⟩

/-- Witness for C9 at concrete names and a concrete operation list. -/
theorem claim_C9_witness :
    setGroupId initStore "  " = initStore ∧
    (setGroupId initStore " 8B ").group = some "8B" ∧
    GroupWF (runOps initStore
      [StoreOp.setGroup "8B", StoreOp.save 1 2 "hi",
       StoreOp.importIns "8B|2|7|ok|Ama|M" 2]) := by
  refine ⟨(claim_C9 initStore "  ").1 (by decide), ?_, ?_⟩
  · exact ((claim_C9 initStore " 8B ").2.1 (by decide)).1
  · exact (claim_C9 initStore "x").2.2.2
      [StoreOp.setGroup "8B", StoreOp.save 1 2 "hi",
       StoreOp.importIns "8B|2|7|ok|Ama|M" 2]

/-- C4: importing the same valid, fresh payload twice succeeds the first
time with the success message, fails the second time with the
already-imported message, leaves the bucket with exactly one matching
`(student, text)` entry, and the second call does not mutate storage. -/
theorem claim_C4 (s : Store) (p : String) (L : Nat)
    (f0 f1 f2 f3 f4 f5 txt : String) (cv tv : Int)
    (hsplit : jsSplit p '|' = [f0, f1, f2, f3, f4, f5])
    (hpc : jsParseInt f1 = some cv)
    (hpt : jsParseInt f2 = some tv)
    (hg : s.group = some f0)
    (hcv : cv = (L : Int))
    (hdec : decodeURIComponent f3 = some txt)
    (htrim : ¬ jsTrim txt = "")
    (hfresh : ¬ ∃ x ∈ s.buckets f0 L, x.student = f4 ∧ x.text = txt) :
    (importPeerInsight s p L).1
      = { success := true, message := "Peer insight added successfully!" } ∧
    (importPeerInsight (importPeerInsight s p L).2 p L).1
      = { success := false, message := "Already imported this insight." } ∧
    List.countP (fun r => decide (r.student = f4) && decide (r.text = txt))
      ((importPeerInsight (importPeerInsight s p L).2 p L).2.buckets f0 L)
      = 1 ∧
    (importPeerInsight (importPeerInsight s p L).2 p L).2
      = (importPeerInsight s p L).2 := by
  have hlen : ¬ (jsSplit p '|').length < 6 := by
    rw [hsplit]
    simp
  have e0 : (jsSplit p '|').getD 0 "" = f0 := by rw [hsplit]; rfl
  have e1 : (jsSplit p '|').getD 1 "" = f1 := by rw [hsplit]; rfl
  have e2 : (jsSplit p '|').getD 2 "" = f2 := by rw [hsplit]; rfl
  have e3 : (jsSplit p '|').getD 3 "" = f3 := by rw [hsplit]; rfl
  have e4 : (jsSplit p '|').getD 4 "" = f4 := by rw [hsplit]; rfl
  have e5 : (jsSplit p '|').getD 5 "" = f5 := by rw [hsplit]; rfl
  have hany : ((s.buckets f0 L).any fun r =>
      decide (r.student = f4) && decide (r.text = txt)) = false := by
    rw [← Bool.not_eq_true, List.any_eq_true]
    intro hex
    obtain ⟨x, hx, hpx⟩ := hex
    simp only [Bool.and_eq_true, decide_eq_true_eq] at hpx
    exact hfresh ⟨x, hx, hpx.1, hpx.2⟩
  have h1 : importPeerInsight s p L
      = ({ success := true, message := "Peer insight added successfully!" },
         { s with buckets := updateBucket s.buckets f0 L (s.buckets f0 L ++
             [{ text := txt, timestamp := tv, student := f4,
                mastery := some (decide (f5 = "M")) }]) }) := by
    simp only [importPeerInsight, e0, e1, e2, e3, e4, e5, hpc, hpt, hdec]
    rw [if_neg hlen,
      if_neg (show ¬ s.group ≠ some f0 from not_not.mpr hg),
      if_neg (show ¬ cv ≠ (L : Int) from not_not.mpr hcv),
      if_neg htrim, hcv, Int.toNat_natCast, hany]
    rfl
  have hbeq : ({ s with buckets := updateBucket s.buckets f0 L (s.buckets f0 L ++
      [{ text := txt, timestamp := tv, student := f4,
         mastery := some (decide (f5 = "M")) }]) } : Store).buckets f0 L
      = s.buckets f0 L ++
        [{ text := txt, timestamp := tv, student := f4,
           mastery := some (decide (f5 = "M")) }] := by
    show updateBucket s.buckets f0 L _ f0 L = _
    rw [mem_updateBucket, if_pos ⟨rfl, rfl⟩]
  have hany2 : ((({ s with buckets := updateBucket s.buckets f0 L (s.buckets f0 L ++
      [{ text := txt, timestamp := tv, student := f4,
         mastery := some (decide (f5 = "M")) }]) } : Store).buckets f0 L).any
      fun r => decide (r.student = f4) && decide (r.text = txt)) = true := by
    rw [hbeq, List.any_eq_true]
    refine ⟨_, List.mem_append_right _ (List.mem_singleton.mpr rfl), ?_⟩
    simp
  have h2 : importPeerInsight
      ({ s with buckets := updateBucket s.buckets f0 L (s.buckets f0 L ++
          [{ text := txt, timestamp := tv, student := f4,
             mastery := some (decide (f5 = "M")) }]) } : Store) p L
      = ({ success := false, message := "Already imported this insight." },
         { s with buckets := updateBucket s.buckets f0 L (s.buckets f0 L ++
             [{ text := txt, timestamp := tv, student := f4,
                mastery := some (decide (f5 = "M")) }]) }) := by
    simp only [importPeerInsight, e0, e1, e2, e3, e4, e5, hpc, hpt, hdec]
    rw [if_neg hlen,
      if_neg (show ¬ ({ s with buckets := updateBucket s.buckets f0 L (s.buckets f0 L ++ [{ text := txt, timestamp := tv, student := f4, mastery := some (decide (f5 = "M")) }]) } : Store).group ≠ some f0 from not_not.mpr hg),
      if_neg (show ¬ cv ≠ (L : Int) from not_not.mpr hcv),
      if_neg htrim, hcv, Int.toNat_natCast, hany2]
    rfl
  rw [h1]
  rw [h2]
  refine ⟨rfl, rfl, ?_, rfl⟩
  rw [hbeq, List.countP_append]
  have h0 : (s.buckets f0 L).countP
      (fun r => decide (r.student = f4) && decide (r.text = txt)) = 0 := by
    rw [List.countP_eq_zero]
    intro y hy hpy
    simp only [Bool.and_eq_true, decide_eq_true_eq] at hpy
    exact hfresh ⟨y, hy, hpy.1, hpy.2⟩
  rw [h0]
  simp

/-- Witness for C4: a concrete valid payload imported twice. -/
theorem claim_C4_witness :
    (importPeerInsight { initStore with group := some "8B" }
      "8B|3|7|hi|Ama|M" 3).1
      = { success := true, message := "Peer insight added successfully!" } ∧
    (importPeerInsight
      (importPeerInsight { initStore with group := some "8B" }
        "8B|3|7|hi|Ama|M" 3).2 "8B|3|7|hi|Ama|M" 3).1
      = { success := false, message := "Already imported this insight." } := by
  have h := claim_C4 { initStore with group := some "8B" } "8B|3|7|hi|Ama|M" 3
    "8B" "3" "7" "hi" "Ama" "M" "hi" 3 7 (by decide) rfl rfl rfl rfl
    (by simp [decodeURIComponent, percentDecodeBytes, utf8Bytes,
      utf8Decode, utf8Tail, isContByte])
    (by decide) (by simp [initStore])
  exact ⟨h.1, h.2.1⟩

/-- Splitting a six-field payload whose fields are free of the delimiter
recovers exactly the six fields. -/
theorem jsSplit_payload (g a b e n f : String)
    (hg : '|' ∉ g.data) (ha : '|' ∉ a.data) (hb : '|' ∉ b.data)
    (he : '|' ∉ e.data) (hn : '|' ∉ n.data) (hf : '|' ∉ f.data) :
    jsSplit (g ++ "|" ++ a ++ "|" ++ b ++ "|" ++ e ++ "|" ++ n ++ "|" ++ f) '|'
      = [g, a, b, e, n, f] := by
  unfold jsSplit
  have hdata : (g ++ "|" ++ a ++ "|" ++ b ++ "|" ++ e ++ "|" ++ n ++ "|" ++ f).data
      = g.data ++ '|' :: (a.data ++ '|' :: (b.data ++ '|' :: (e.data ++
          '|' :: (n.data ++ '|' :: f.data)))) := by
    simp [String.data_append]
  rw [hdata, splitOnChar_append hg, splitOnChar_append ha,
    splitOnChar_append hb, splitOnChar_append he, splitOnChar_append hn,
    splitOnChar_not_mem hf]
  simp [mk_data]

/-- A decimal numeral contains no delimiter. -/
theorem bar_not_mem_repr (n : Nat) : '|' ∉ (Nat.repr n).data := by
  rw [repr_data]
  exact bar_not_mem_natDigits n

/-- A successful import, spelled out: with a six-field split, numeric
lesson and timestamp, matching group and lesson, non-blank decoded text
and no duplicate, the result is success and the bucket gains the entry. -/
theorem import_success_eq (s : Store) (p : String) (L : Nat)
    (f0 f1 f2 f3 f4 f5 txt : String) (cv tv : Int)
    (hsplit : jsSplit p '|' = [f0, f1, f2, f3, f4, f5])
    (hpc : jsParseInt f1 = some cv)
    (hpt : jsParseInt f2 = some tv)
    (hg : s.group = some f0)
    (hcv : cv = (L : Int))
    (hdec : decodeURIComponent f3 = some txt)
    (htrim : ¬ jsTrim txt = "")
    (hfresh : ¬ ∃ x ∈ s.buckets f0 L, x.student = f4 ∧ x.text = txt) :
    importPeerInsight s p L
      = ({ success := true, message := "Peer insight added successfully!" },
         { s with buckets := updateBucket s.buckets f0 L (s.buckets f0 L ++
             [{ text := txt, timestamp := tv, student := f4,
                mastery := some (decide (f5 = "M")) }]) }) := by
  have hlen : ¬ (jsSplit p '|').length < 6 := by
    rw [hsplit]
    simp
  have e0 : (jsSplit p '|').getD 0 "" = f0 := by rw [hsplit]; rfl
  have e1 : (jsSplit p '|').getD 1 "" = f1 := by rw [hsplit]; rfl
  have e2 : (jsSplit p '|').getD 2 "" = f2 := by rw [hsplit]; rfl
  have e3 : (jsSplit p '|').getD 3 "" = f3 := by rw [hsplit]; rfl
  have e4 : (jsSplit p '|').getD 4 "" = f4 := by rw [hsplit]; rfl
  have e5 : (jsSplit p '|').getD 5 "" = f5 := by rw [hsplit]; rfl
  have hany : ((s.buckets f0 L).any fun r =>
      decide (r.student = f4) && decide (r.text = txt)) = false := by
    rw [← Bool.not_eq_true, List.any_eq_true]
    intro hex
    obtain ⟨x, hx, hpx⟩ := hex
    simp only [Bool.and_eq_true, decide_eq_true_eq] at hpx
    exact hfresh ⟨x, hx, hpx.1, hpx.2⟩
  simp only [importPeerInsight, e0, e1, e2, e3, e4, e5, hpc, hpt, hdec]
  rw [if_neg hlen,
    if_neg (show ¬ s.group ≠ some f0 from not_not.mpr hg),
    if_neg (show ¬ cv ≠ (L : Int) from not_not.mpr hcv),
    if_neg htrim, hcv, Int.toNat_natCast, hany]
  rfl

/-- C1 counterexample: the claim quantifies over every group and student
name, but a group containing the delimiter `|` (which `setGroupId`
accepts) breaks the round trip: the exporting device produces a payload,
yet a device in the same group fails to import it (the split misparses
and the group gate rejects). -/
def c1cexA : Store :=
  { group := some "a|b", studentName := some "s",
    drafts := fun c => if c = 0 then some "hi" else none,
    buckets := fun _ _ => [] }

/-- The importing device of the C1 counterexample: same active group. -/
def c1cexB : Store :=
  { group := some "a|b", studentName := none,
    drafts := fun _ => none, buckets := fun _ _ => [] }

theorem claim_C1_counterexample :
    exportInsightPayload c1cexA 0 0 false = some "a|b|0|0|hi|s|N" ∧
    (importPeerInsight c1cexB "a|b|0|0|hi|s|N" 0).1.success = false ∧
    (importPeerInsight c1cexB "a|b|0|0|hi|s|N" 0).2 = c1cexB := by
  refine ⟨rfl, rfl, rfl⟩

/-- C1 amended: the round trip holds provided the group and the student
name are non-empty and contain no `|`: exporting a reflection draft with
non-blank trim yields a payload, and importing it on a device with the
same active group while viewing the same lesson appends one entry whose
text is the trim of the draft and whose mastery flag is the exported one,
provided no equal `(student, text)` entry is already present. -/
theorem claim_C1_amended (sA sB : Store) (g sName t : String)
    (L now1 : Nat) (m : Bool)
    (hg1 : g ≠ "") (hgbar : '|' ∉ g.data)
    (hs1 : sName ≠ "") (hsbar : '|' ∉ sName.data)
    (ht : jsTrim t ≠ "")
    (hAg : sA.group = some g) (hAn : sA.studentName = some sName)
    (hAd : sA.drafts L = some t)
    (hBg : sB.group = some g)
    (hfresh : ¬ ∃ x ∈ sB.buckets g L, x.student = sName ∧ x.text = jsTrim t) :
    ∃ payload, exportInsightPayload sA now1 L m = some payload ∧
      importPeerInsight sB payload L
        = ({ success := true, message := "Peer insight added successfully!" },
           { sB with buckets := updateBucket sB.buckets g L (sB.buckets g L ++
               [{ text := jsTrim t, timestamp := (now1 : Int), student := sName,
                  mastery := some m }]) }) := by
  have hexp : exportInsightPayload sA now1 L m
      = some (g ++ "|" ++ Nat.repr L ++ "|" ++ Nat.repr now1 ++ "|" ++
          encodeURIComponent (jsTrim t) ++ "|" ++ sName ++ "|" ++
          (if m then "M" else "N")) := by
    simp only [exportInsightPayload, hAg, hAn, hAd]
    rw [if_neg (by
      push_neg
      exact ⟨hg1, hs1, ne_empty_of_jsTrim ht⟩)]
  refine ⟨_, hexp, ?_⟩
  have hflagbar : '|' ∉ (if m then "M" else "N").data := by
    cases m <;> decide
  have hsplit := jsSplit_payload g (Nat.repr L) (Nat.repr now1)
    (encodeURIComponent (jsTrim t)) sName (if m then "M" else "N")
    hgbar (bar_not_mem_repr L) (bar_not_mem_repr now1)
    (bar_not_mem_encode (jsTrim t)) hsbar hflagbar
  have himp := import_success_eq sB
    (g ++ "|" ++ Nat.repr L ++ "|" ++ Nat.repr now1 ++ "|" ++
      encodeURIComponent (jsTrim t) ++ "|" ++ sName ++ "|" ++
      (if m then "M" else "N")) L
    g (Nat.repr L) (Nat.repr now1) (encodeURIComponent (jsTrim t)) sName
    (if m then "M" else "N") (jsTrim t) (L : Int) (now1 : Int)
    hsplit (jsParseInt_repr L) (jsParseInt_repr now1) hBg rfl
    (decode_encode (jsTrim t)) (by rw [jsTrim_idem]; exact ht) hfresh
  rw [himp]
  have hm : decide ((if m then "M" else "N") = "M") = m := by
    cases m <;> rfl
  rw [hm]

/-- Witness for the amended C1 at concrete devices. -/
def c1wA : Store :=
  { group := some "8B", studentName := some "Ama",
    drafts := fun c => if c = 3 then some " hi " else none,
    buckets := fun _ _ => [] }

/-- The importing device of the C1 witness. -/
def c1wB : Store :=
  { group := some "8B", studentName := none,
    drafts := fun _ => none, buckets := fun _ _ => [] }

theorem claim_C1_amended_witness :
    ∃ payload, exportInsightPayload c1wA 7 3 true = some payload ∧
      importPeerInsight c1wB payload 3
        = ({ success := true, message := "Peer insight added successfully!" },
           { c1wB with buckets := updateBucket c1wB.buckets "8B" 3 (c1wB.buckets "8B" 3 ++
               [{ text := "hi", timestamp := 7, student := "Ama",
                  mastery := some true }]) }) := by
  have h := claim_C1_amended c1wA c1wB "8B" "Ama" " hi " 3 7 true
    (by decide) (by decide) (by decide) (by decide) (by decide)
    rfl rfl rfl rfl (by simp [c1wB])
  exact h

end ChatApp
